import Mathlib

/-!
Shallow embedding of `brewer` (dsully/brewer), core crate
`src/brewer_core/src/lib.rs`, for verification of the specification's
claims about the aggregation engine and install/uninstall orchestrator.

Stores (`HashMap<String, T>` in the source) are modelled as association
lists built with last-wins insertion; iteration order of a `HashMap` is
arbitrary, and all claims here are about key sets / looked-up values,
which are order-independent. Filesystem and subprocess effects are
modelled by passing their observable results (directory listings, parse
outcomes, exit statuses) as explicit data.
-/

namespace Brewer

/-- Model of `Store<T>`: mapping from identifier to `T` (a `HashMap<String, T>` in
the source), modelled as an association list with unique keys maintained
by last-wins insertion. -/
abbrev Store (α : Type) : Type := List (String × α)

/-- Model of `HashMap::insert`: replaces any existing binding of `k`, otherwise
adds one. Modelled as erase-then-append, which keeps keys unique. -/
def Store.insert {α : Type} (s : Store α) (k : String) (v : α) : Store α :=
  s.filter (fun p => p.1 ≠ k) ++ [(k, v)]

/-- Model of `HashMap::get`: look up a key. -/
def Store.get {α : Type} (s : Store α) (k : String) : Option α :=
  (s.find? (fun p => p.1 = k)).map Prod.snd

/-- The key set of a store (as a list of keys). -/
def Store.keys {α : Type} (s : Store α) : List String :=
  s.map Prod.fst

/-- Insertion-order set insert, modelling `HashSet::insert` /
`collect::<HashSet<_>>` deduplication. -/
def insertSet (s : List String) (x : String) : List String :=
  if x ∈ s then s else s ++ [x]

/-- Fold a list of `(key, value)` pairs into a store, last key wins;
models `collect::<HashMap<_, _>>()`. -/
def storeOfList {α : Type} (l : List (String × α)) : Store α :=
  l.foldl (fun s p => Store.insert s p.1 p.2) []

/-- Model of `formula::base::Formula` (in the `models` module, not part of the
excerpt; fields are those used by `lib.rs`/`cli.rs` and §3 of the spec):
identifier `name`, source repository `tap`, description, homepage, and
the stable version string. -/
structure FormulaBase where
  name : String
  tap : String
  desc : String
  homepage : String
  stableVersion : String
  deriving Repr, DecidableEq

/-- Model of `cask::base::Cask` (modelled likewise): identifier `token`, tap,
optional description, homepage, current version string. -/
structure CaskBase where
  token : String
  tap : String
  desc : Option String
  homepage : String
  version : String
  deriving Repr, DecidableEq

/-- Model of `formula::analytics::Formula`: a popularity record from the analytics
endpoint; keyed by its own `formula` field, carrying an install count. -/
structure Analytics where
  formula : String
  count : Nat
  deriving Repr, DecidableEq

/-- Model of `formula::receipt::Receipt`. Modelled from the spec: the `models`
module is not in the excerpt; §3 says a receipt records at minimum
whether the install was on request and the installed source version
(both fields are read by `cli.rs`). -/
structure Receipt where
  installed_on_request : Bool
  version : String
  deriving Repr, DecidableEq

/-- Model of `formula::Formula`: enriched formula = base + executable set +
optional popularity record. -/
structure Formula where
  base : FormulaBase
  executables : List String
  analytics : Option Analytics
  deriving Repr, DecidableEq

/-- Model of `cask::Cask`: enriched cask = base only. -/
structure Cask where
  base : CaskBase
  deriving Repr, DecidableEq

/-- Model of `formula::installed::Formula`: upstream enriched formula plus the
install receipt. -/
structure InstalledFormula where
  upstream : Formula
  receipt : Receipt
  deriving Repr, DecidableEq

/-- Model of `cask::installed::Cask`: upstream enriched cask plus the set of
installed version directory names. -/
structure InstalledCask where
  upstream : Cask
  versions : List String
  deriving Repr, DecidableEq

/-- Model of `State<F, C>`: the generic two-field container pairing the formula
side with the cask side, reused at every pipeline stage. -/
structure StatePair (F C : Type) where
  formulae : F
  casks : C
  deriving Repr, DecidableEq

/-- Model of `models::Keg`: a kind-tagged mutation target, either a formula or a
cask. -/
inductive Keg where
  | formula (f : Formula)
  | cask (c : Cask)
  deriving Repr, DecidableEq

/-- Model of `split_kegs` (`lib.rs:394-406`): partition a batch of kegs into the
formula list and the cask list, preserving batch order within each. -/
def split_kegs : List Keg → List Formula × List Cask
  | [] => ([], [])
  | .formula f :: rest =>
    let p := split_kegs rest
    (f :: p.1, p.2)
  | .cask c :: rest =>
    let p := split_kegs rest
    (p.1, c :: p.2)

/-- Which partition a delegated `brew` call operates on
(`--formulae` vs `--casks`). -/
inductive BatchKind where
  | formulae
  | casks
  deriving Repr, DecidableEq

/-- One delegated subprocess invocation of the package manager: the verb
(`install`/`uninstall`), the partition flag, and the identifier args. -/
structure DelegCall where
  verb : String
  kind : BatchKind
  args : List String
  deriving Repr, DecidableEq

/-- The partition-naming suffix used in the failure message. -/
def BatchKind.label : BatchKind → String
  | .formulae => "formulae"
  | .casks => "casks"

/-- Common body of `Brew::install` / `Brew::uninstall` (`lib.rs:70-132`), parameterised
by the verb. `status : DelegCall → Except String Bool` models
`.status()?`: `.error` is the `?`-propagated spawn failure, `.ok b` the
subprocess's reported success. Returns the list of delegation calls made
(in order) together with the result; on a reported formula failure the
error is `"failed to <verb> formulae"` and the cask call is never made. -/
def mutate (verb : String) (status : DelegCall → Except String Bool)
    (kegs : List Keg) : List DelegCall × Except String Unit :=
  let p := split_kegs kegs
  let fPhase : List DelegCall × Except String Unit :=
    if p.1.isEmpty then ([], .ok ())
    else
      let call : DelegCall := ⟨verb, .formulae, p.1.map (fun f => f.base.name)⟩
      match status call with
      | .error e => ([call], .error e)
      | .ok true => ([call], .ok ())
      | .ok false => ([call], .error ("failed to " ++ verb ++ " formulae"))
  match fPhase with
  | (calls, .error e) => (calls, .error e)
  | (calls, .ok ()) =>
    if p.2.isEmpty then (calls, .ok ())
    else
      let call : DelegCall := ⟨verb, .casks, p.2.map (fun c => c.base.token)⟩
      match status call with
      | .error e => (calls ++ [call], .error e)
      | .ok true => (calls ++ [call], .ok ())
      | .ok false => (calls ++ [call], .error ("failed to " ++ verb ++ " casks"))

/-- Model of `Brew::install` (`lib.rs:70-100`). -/
def install (status : DelegCall → Except String Bool) (kegs : List Keg) :
    List DelegCall × Except String Unit :=
  mutate ("install") status kegs

/-- Model of `Brew::uninstall` (`lib.rs:102-132`). -/
def uninstall (status : DelegCall → Except String Bool) (kegs : List Keg) :
    List DelegCall × Except String Unit :=
  mutate ("uninstall") status kegs

/-- Model of `str::split_once(c)`: split a character list at the first occurrence
of `c`; `none` when `c` does not occur. -/
def splitOnceChar (c : Char) : List Char → Option (List Char × List Char)
  | [] => none
  | x :: xs =>
    if x = c then some ([], xs)
    else
      match splitOnceChar c xs with
      | none => none
      | some (l, r) => some (x :: l, r)

/-- Model of `lhs.find(c)` followed by `&lhs[..index]`: the prefix strictly before
the first occurrence of `c`; `none` when `c` does not occur. -/
def takeBeforeChar (c : Char) : List Char → Option (List Char)
  | [] => none
  | x :: xs =>
    if x = c then some []
    else (takeBeforeChar c xs).map (fun l => x :: l)

/-- Worker for `str::split_whitespace`: maximal runs of non-whitespace characters. -/
def splitWsAux : List Char → List Char → List (List Char)
  | [], acc => if acc.isEmpty then [] else [acc.reverse]
  | c :: rest, acc =>
    if c.isWhitespace then
      if acc.isEmpty then splitWsAux rest []
      else acc.reverse :: splitWsAux rest []
    else splitWsAux rest (c :: acc)

/-- Model of `str::split_whitespace` over a character list. -/
def splitWs (l : List Char) : List (List Char) :=
  splitWsAux l []

/-- The per-line body of `Brew::executables` (`lib.rs:157-171`): skip an
empty line; split at the first `:` (no colon → skip); take the substring
of the left-hand side before its first `(` (no paren → skip); split the
right-hand side on whitespace into a deduplicated executable set; insert
under the extracted name. Lines are lists of characters. -/
def processLine (store : Store (List String)) (line : List Char) :
    Store (List String) :=
  if line.isEmpty then store
  else
    match splitOnceChar ':' line with
    | none => store
    | some (lhs, rhs) =>
      match takeBeforeChar '(' lhs with
      | none => store
      | some nameCs =>
        let exes := (splitWs rhs).foldl
          (fun s w => insertSet s (String.mk w)) []
        Store.insert store (String.mk nameCs) exes

/-- Model of `Brew::executables` (`lib.rs:153-174`), given the fetched body as a
list of lines: fold every line through `processLine` starting from the
empty store. The fold is total — no line shape is an error. -/
def executables (doc : List (List Char)) : Store (List String) :=
  doc.foldl processLine []

/-- Model of `Brew::is_dotfile` (`lib.rs:357-359`):
`name.starts_with('.')`, expressed on the character list so that it
evaluates by reduction. -/
def is_dotfile (name : String) : Bool :=
  match name.data with
  | [] => false
  | c :: _ => c = '.'

/-- The formula enrichment performed inside `Brew::state`
(`lib.rs:185-207`): executables by exact key (default empty set);
popularity by exact key, else by the fallback key `tap/name` built from
the base record, else absent. -/
def enrichFormula (execs : Store (List String)) (analytics : Store Analytics)
    (name : String) (base : FormulaBase) : Formula :=
  { base := base
    executables := (Store.get execs name).getD []
    analytics :=
      match Store.get analytics name with
      | some a => some a
      | none => Store.get analytics (base.tap ++ "/" ++ base.name) }

/-- The catalog-enrichment stage of `Brew::state` (`lib.rs:181-215`):
map every formula base record through `enrichFormula` and wrap every
cask base record as `Cask { base }`, keeping the keys of both stores. -/
def buildAll (execs : Store (List String)) (analytics : Store Analytics)
    (all : StatePair (Store FormulaBase) (Store CaskBase)) :
    StatePair (Store Formula) (Store Cask) :=
  { formulae := all.formulae.map
      (fun p => (p.1, enrichFormula execs analytics p.1 p.2))
    casks := all.casks.map (fun p => (p.1, Cask.mk p.2)) }

/-- One immediate child of `<prefix>/opt` in the receipts scan: its file
name, and the outcome of resolving the child and opening, reading and
parsing its `INSTALL_RECEIPT.json` (`none` = missing or unparseable). -/
structure OptEntry where
  name : String
  receipt : Option Receipt
  deriving Repr, DecidableEq

/-- The loop of `Brew::eval_installed_formulae_receipts`
(`lib.rs:328-352`): skip children whose name begins with `.`; for the
rest, a missing or unparseable receipt aborts the whole scan with an
error; otherwise insert the receipt under the child's name. -/
def receiptsScan : List OptEntry → Store Receipt →
    Except String (Store Receipt)
  | [], store => .ok store
  | e :: rest, store =>
    if is_dotfile e.name then receiptsScan rest store
    else
      match e.receipt with
      | none => .error ("failed to read INSTALL_RECEIPT.json for " ++ e.name)
      | some r => receiptsScan rest (Store.insert store e.name r)

/-- Model of `Brew::eval_installed_formulae_receipts` (`lib.rs:323-355`), given
the listing of `<prefix>/opt` as data. -/
def eval_installed_formulae_receipts (entries : List OptEntry) :
    Except String (Store Receipt) :=
  receiptsScan entries []

/-- Common filtering loop of `Brew::eval_installed_formulae`
(`lib.rs:306-318`) and `Brew::eval_installed_casks` (`lib.rs:244-256`),
which are clones of one another up to the wrapped record type: walk the
scanned `(identifier, local-data)` pairs, drop any identifier the
catalog store does not contain, and insert the rest wrapped as
upstream reference + local record. -/
def catalogFilterAux {α β γ : Type} (store : Store α) (wrap : α → β → γ) :
    List (String × β) → Store γ → Store γ
  | [], acc => acc
  | p :: rest, acc =>
    match Store.get store p.1 with
    | none => catalogFilterAux store wrap rest acc
    | some f => catalogFilterAux store wrap rest (Store.insert acc p.1 (wrap f p.2))

/-- The filtering loop started from the empty installed store, as both
source functions do. -/
def catalogFilter {α β γ : Type} (store : Store α) (wrap : α → β → γ)
    (scan : List (String × β)) : Store γ :=
  catalogFilterAux store wrap scan []

/-- Model of `Brew::eval_installed_formulae` (`lib.rs:300-321`): propagate a scan
failure; otherwise keep exactly the scanned names present in the catalog
store, wrapping each as upstream reference + receipt, and silently drop
the rest. -/
def eval_installed_formulae (store : Store Formula)
    (scanned : Except String (Store Receipt)) :
    Except String (Store InstalledFormula) :=
  match scanned with
  | .error e => .error e
  | .ok receipts => .ok (catalogFilter store InstalledFormula.mk receipts)

instance {ε α : Type} [DecidableEq ε] [DecidableEq α] :
    DecidableEq (Except ε α) := fun a b =>
  match a, b with
  | .error x, .error y =>
    if h : x = y then .isTrue (congrArg Except.error h)
    else .isFalse (fun hh => h (Except.error.inj hh))
  | .ok x, .ok y =>
    if h : x = y then .isTrue (congrArg Except.ok h)
    else .isFalse (fun hh => h (Except.ok.inj hh))
  | .error _, .ok _ => .isFalse (fun hh => Except.noConfusion hh)
  | .ok _, .error _ => .isFalse (fun hh => Except.noConfusion hh)

/-- One immediate child of `<prefix>/Caskroom` in the cask-versions
scan: its file name, and the outcome of resolving it and enumerating its
own children's names (`.error` = `canonicalize`/`read_dir` failed, e.g.
because the child is a regular file). -/
structure CaskroomEntry where
  name : String
  children : Except String (List String)
  deriving Repr, DecidableEq

/-- The loop of `Brew::eval_installed_casks_versions` (`lib.rs:266-295`):
every child of the Caskroom root is processed — there is no dotfile check
at this level; a failure enumerating a child's own children aborts the
whole scan; among those grandchildren, names beginning with `.` are
skipped and the rest collected as the version set. -/
def caskVersionsScan : List CaskroomEntry → Store (List String) →
    Except String (Store (List String))
  | [], store => .ok store
  | e :: rest, store =>
    match e.children with
    | .error err => .error err
    | .ok names =>
      let versions := names.foldl
        (fun vs n => if is_dotfile n then vs else insertSet vs n) []
      caskVersionsScan rest (Store.insert store e.name versions)

/-- Model of `Brew::eval_installed_casks_versions` (`lib.rs:261-298`), given the
listing of `<prefix>/Caskroom` as data. -/
def eval_installed_casks_versions (entries : List CaskroomEntry) :
    Except String (Store (List String)) :=
  caskVersionsScan entries []

/-- Model of `Brew::eval_installed_casks` (`lib.rs:241-259`): propagate a scan
failure; otherwise keep exactly the scanned names present in the catalog
store, wrapping each as upstream reference + version set, and silently
drop the rest. -/
def eval_installed_casks (store : Store Cask)
    (scanned : Except String (Store (List String))) :
    Except String (Store InstalledCask) :=
  match scanned with
  | .error e => .error e
  | .ok versionsStore =>
    .ok (catalogFilter store InstalledCask.mk versionsStore)

/-- The JSON document `brew info --eval-all --json=v2` is expected to
print: one array of formula base records and one of cask base records. -/
structure BulkDoc where
  formulae : List FormulaBase
  casks : List CaskBase
  deriving Repr, DecidableEq

/-- The observable outcome of `command.output()?` in `Brew::eval_all`:
the subprocess's exit code and its captured stdout bytes. -/
structure ProcOutput where
  exitCode : Int
  stdout : List Nat
  deriving Repr, DecidableEq

/-- Model of `Brew::eval_all` (`lib.rs:361-391`), with the subprocess run and the
serde JSON parse passed in as data: a spawn failure (`output()?`)
propagates; otherwise the captured stdout is parsed — the exit status is
never consulted — and on parse success the two record lists are folded
into stores keyed by each record's own `name` / `token` field. -/
def eval_all (parse : List Nat → Option BulkDoc)
    (runResult : Except String ProcOutput) :
    Except String (StatePair (Store FormulaBase) (Store CaskBase)) :=
  match runResult with
  | .error e => .error e
  | .ok out =>
    match parse out.stdout with
    | none => .error ("failed to parse brew info output")
    | some doc =>
      .ok { formulae := storeOfList (doc.formulae.map (fun f => (f.name, f)))
            casks := storeOfList (doc.casks.map (fun c => (c.token, c))) }

/-! ### Generic store and partition lemmas -/

theorem Store.mem_keys_insert {α : Type} (s : Store α) (k k' : String)
    (v : α) : k' ∈ (s.insert k v).keys ↔ k' = k ∨ k' ∈ s.keys := by
  simp only [Store.insert, Store.keys, List.map_append, List.mem_append,
    List.mem_map, List.mem_filter, List.map_cons, List.map_nil,
    List.mem_singleton, decide_not, Bool.not_eq_eq_eq_not, Bool.not_true,
    decide_eq_false_iff_not]
  constructor
  · rintro (⟨p, ⟨hp, hpk⟩, rfl⟩ | rfl)
    · exact Or.inr ⟨p, hp, rfl⟩
    · exact Or.inl rfl
  · rintro (rfl | ⟨p, hp, rfl⟩)
    · exact Or.inr rfl
    · by_cases hk : p.1 = k
      · exact Or.inr hk
      · exact Or.inl ⟨p, ⟨hp, hk⟩, rfl⟩

theorem Store.get_mem_keys {α : Type} (s : Store α) (k : String) (v : α)
    (h : s.get k = some v) : k ∈ s.keys := by
  simp only [Store.get, Option.map_eq_some'] at h
  obtain ⟨p, hfind, _⟩ := h
  have hmem := List.mem_of_find?_eq_some hfind
  have hpk := List.find?_some hfind
  simp only [decide_eq_true_eq] at hpk
  exact List.mem_map.mpr ⟨p, hmem, hpk⟩

theorem Store.mem_insert {α : Type} (s : Store α) (k : String) (v : α)
    (p : String × α) : p ∈ s.insert k v → p ∈ s ∨ p = (k, v) := by
  simp only [Store.insert, List.mem_append, List.mem_singleton,
    List.mem_filter]
  rintro (⟨hp, _⟩ | rfl)
  · exact Or.inl hp
  · exact Or.inr rfl

theorem split_kegs_eq_filterMap (kegs : List Keg) :
    split_kegs kegs =
      (kegs.filterMap (fun k => match k with
        | .formula f => some f
        | .cask _ => none),
       kegs.filterMap (fun k => match k with
        | .cask c => some c
        | .formula _ => none)) := by
  induction kegs with
  | nil => rfl
  | cons k rest ih => cases k <;> simp [split_kegs, ih]

/-! ### C1: enrichment preserves the catalog key sets -/

/-- C1: for every bulk-catalog input (formula and cask base stores) and
any popularity and executable stores, the enriched catalog produced by
the full-state build (`Brew::state`, `lib.rs:176-229`) has exactly the
same key set as the base catalog, for both the formula and the cask
store: enrichment neither adds nor removes any key. -/
theorem enrichment_preserves_keys (execs : Store (List String))
    (analytics : Store Analytics)
    (all : StatePair (Store FormulaBase) (Store CaskBase)) :
    (buildAll execs analytics all).formulae.keys = all.formulae.keys ∧
    (buildAll execs analytics all).casks.keys = all.casks.keys := by
  constructor <;>
    simp [buildAll, Store.keys, List.map_map, Function.comp]

/-! ### C8: the empty batch delegates nothing and succeeds -/

/-- C8: for the empty batch of targets, `Brew::install` and
`Brew::uninstall` perform no delegation call to the package manager at
all and return success. -/
theorem empty_batch_no_delegation (status : DelegCall → Except String Bool) :
    install status [] = ([], .ok ()) ∧
    uninstall status [] = ([], .ok ()) := by
  exact ⟨rfl, rfl⟩

/-! ### C9: the bulk-catalog fetch ignores the exit status -/

/-- C9: `Brew::eval_all` never inspects the subprocess exit status: for
a given captured stdout the result is identical under any two exit
codes, and the fetch succeeds exactly when the stdout parses as the
expected JSON document — a non-zero exit with parseable stdout is a
success, and empty or malformed stdout surfaces as a parse failure. -/
theorem eval_all_ignores_exit_status (parse : List Nat → Option BulkDoc)
    (s : List Nat) (c₁ c₂ : Int) :
    eval_all parse (.ok ⟨c₁, s⟩) = eval_all parse (.ok ⟨c₂, s⟩) ∧
    (eval_all parse (.ok ⟨c₁, s⟩)).isOk = (parse s).isSome ∧
    (parse s = none →
      eval_all parse (.ok ⟨c₁, s⟩)
        = .error ("failed to parse brew info output")) := by
  cases h : parse s <;>
    simp [eval_all, h, Except.isOk, Except.toBool]

/-- Witness for C9: a parser rejecting every stdout makes the fetch a
parse failure under a non-zero exit code, while a parser accepting the
empty document makes it a success under the same non-zero exit code. -/
theorem eval_all_ignores_exit_status_witness :
    ((fun _ => (none : Option BulkDoc)) ([] : List Nat) = none ∧
      eval_all (fun _ => none) (.ok ⟨1, []⟩)
        = .error ("failed to parse brew info output")) ∧
    (eval_all (fun _ => some ⟨[], []⟩) (.ok ⟨1, []⟩)).isOk
      = (some (⟨[], []⟩ : BulkDoc)).isSome :=
  ⟨⟨rfl, (eval_all_ignores_exit_status (fun _ => none) [] 1 0).2.2 rfl⟩,
    (eval_all_ignores_exit_status (fun _ => some ⟨[], []⟩) [] 1 0).2.1⟩

/-! ### C3: popularity lookup falls back to the `tap/name` key -/

/-- C3: enrichment looks a formula's popularity record up first by the
exact identifier; only when that lookup fails does it retry with the key
rewritten as `tap/name` (so when neither key is present the popularity
is absent, the fallback lookup returning `none`). -/
theorem popularity_fallback_lookup (execs : Store (List String))
    (analytics : Store Analytics) (name : String) (base : FormulaBase) :
    (∀ a, Store.get analytics name = some a →
      (enrichFormula execs analytics name base).analytics = some a) ∧
    (Store.get analytics name = none →
      (enrichFormula execs analytics name base).analytics
        = Store.get analytics (base.tap ++ "/" ++ base.name)) := by
  constructor
  · intro a h
    simp [enrichFormula, h]
  · intro h
    simp [enrichFormula, h]

/-- Sample formula base record for the C3 scenario: identifier `foo`,
tap `bar-tap`. -/
def fooBase : FormulaBase :=
  { name := "foo"
    tap := "bar-tap"
    desc := "sample"
    homepage := "https://example.invalid"
    stableVersion := "1.0" }

/-- Sample popularity record spelled under the combined key. -/
def fooPop : Analytics :=
  { formula := "bar-tap/foo", count := 42 }

/-- Witness for C3: with a popularity store holding only `bar-tap/foo`,
the exact lookup of `foo` misses and the enriched formula's popularity
equals the `bar-tap/foo` record. -/
theorem popularity_fallback_lookup_witness :
    Store.get [("bar-tap/foo", fooPop)] "foo" = none ∧
    (enrichFormula [] [("bar-tap/foo", fooPop)] "foo" fooBase).analytics
      = some fooPop := by
  refine ⟨by decide, ?_⟩
  have h := (popularity_fallback_lookup []
    [("bar-tap/foo", fooPop)] "foo" fooBase).2 (by decide)
  rw [h]
  decide

/-! ### C4: a formula-partition failure suppresses the cask partition -/

/-- C4: a mixed batch is partitioned into formula and cask identifier
sequences preserving batch order; the formula partition, when non-empty,
is delegated first as one grouped call, and when its delegation reports
failure the result is exactly that one call — the cask partition is
never attempted — with the formula-specific error message, for both
`Brew::install` and `Brew::uninstall`. -/
theorem formula_failure_blocks_casks
    (statusI statusU : DelegCall → Except String Bool) (kegs : List Keg)
    (hne : (split_kegs kegs).1 ≠ [])
    (hI : statusI ⟨"install", .formulae,
      (split_kegs kegs).1.map (fun f => f.base.name)⟩ = .ok false)
    (hU : statusU ⟨"uninstall", .formulae,
      (split_kegs kegs).1.map (fun f => f.base.name)⟩ = .ok false) :
    install statusI kegs =
      ([⟨"install", .formulae,
          (split_kegs kegs).1.map (fun f => f.base.name)⟩],
        .error ("failed to install formulae")) ∧
    uninstall statusU kegs =
      ([⟨"uninstall", .formulae,
          (split_kegs kegs).1.map (fun f => f.base.name)⟩],
        .error ("failed to uninstall formulae")) ∧
    split_kegs kegs =
      (kegs.filterMap (fun k => match k with
        | .formula f => some f
        | .cask _ => none),
       kegs.filterMap (fun k => match k with
        | .cask c => some c
        | .formula _ => none)) := by
  have hempty : (split_kegs kegs).1.isEmpty = false := by
    cases h : (split_kegs kegs).1 with
    | nil => exact absurd h hne
    | cons a l => rfl
  refine ⟨?_, ?_, split_kegs_eq_filterMap kegs⟩
  · simp only [install, mutate, hempty, Bool.false_eq_true, if_false, hI]
    rfl
  · simp only [uninstall, mutate, hempty, Bool.false_eq_true, if_false, hU]
    rfl

/-- Sample formula target `a`. -/
def kegA : Keg :=
  .formula ⟨⟨"a", "homebrew/core", "", "", "1"⟩, [], none⟩

/-- Sample cask target `x`. -/
def kegX : Keg :=
  .cask ⟨⟨"x", "homebrew/cask", none, "", "1"⟩⟩

/-- Sample formula target `b`. -/
def kegB : Keg :=
  .formula ⟨⟨"b", "homebrew/core", "", "", "1"⟩, [], none⟩

/-- Witness for C4: on the batch `[Formula(a), Cask(x), Formula(b)]`
with a delegation that reports failure, install and uninstall each make
exactly the one formula call `["a", "b"]` — no cask call — and fail with
the formula-specific message. -/
theorem formula_failure_blocks_casks_witness :
    (split_kegs [kegA, kegX, kegB]).1 ≠ [] ∧
    install (fun _ => .ok false) [kegA, kegX, kegB] =
      ([⟨"install", .formulae, ["a", "b"]⟩],
        .error ("failed to install formulae")) ∧
    uninstall (fun _ => .ok false) [kegA, kegX, kegB] =
      ([⟨"uninstall", .formulae, ["a", "b"]⟩],
        .error ("failed to uninstall formulae")) := by
  have h := formula_failure_blocks_casks (fun _ => .ok false)
    (fun _ => .ok false) [kegA, kegX, kegB] (by decide) rfl rfl
  refine ⟨by decide, ?_, ?_⟩
  · rw [h.1]
    decide
  · rw [h.2.1]
    decide

/-! ### C2: installed stores are filtered against the catalog -/

/-- Helper for C2: keys produced by the catalog-filtering loop all come
from the catalog store (given the accumulator's keys already do). -/
theorem keys_subset_of_filter_fold {α β γ : Type} (store : Store α)
    (wrap : α → β → γ) :
    ∀ (scan : List (String × β)) (acc : Store γ),
      (∀ k, k ∈ acc.keys → k ∈ store.keys) →
      ∀ k, k ∈ (catalogFilterAux store wrap scan acc).keys →
        k ∈ store.keys := by
  intro scan
  induction scan with
  | nil => intro acc hacc k hk; exact hacc k hk
  | cons p rest ih =>
    intro acc hacc k hk
    rw [catalogFilterAux] at hk
    cases hget : Store.get store p.1 with
    | none =>
      rw [hget] at hk
      exact ih acc hacc k hk
    | some f =>
      rw [hget] at hk
      refine ih (Store.insert acc p.1 (wrap f p.2)) ?_ k hk
      intro k2 hk2
      rcases (Store.mem_keys_insert acc p.1 k2 (wrap f p.2)).mp hk2 with rfl | h
      · exact Store.get_mem_keys store p.1 f hget
      · exact hacc k2 h

/-- C2: for every catalog store and every successful raw scan result,
building the installed store succeeds (a scan entry absent from the
catalog is dropped, never an error) and every key of the installed store
is a key of the corresponding `all` store — for formulae
(`Brew::eval_installed_formulae`) and casks (`Brew::eval_installed_casks`)
alike. -/
theorem installed_keys_subset_catalog (fstore : Store Formula)
    (cstore : Store Cask) (receipts : Store Receipt)
    (versions : Store (List String)) :
    (∃ inst, eval_installed_formulae fstore (.ok receipts) = .ok inst ∧
      ∀ k, k ∈ inst.keys → k ∈ fstore.keys) ∧
    (∃ inst, eval_installed_casks cstore (.ok versions) = .ok inst ∧
      ∀ k, k ∈ inst.keys → k ∈ cstore.keys) := by
  constructor
  · refine ⟨_, rfl, ?_⟩
    intro k hk
    exact keys_subset_of_filter_fold fstore InstalledFormula.mk receipts []
      (fun k hk => absurd hk (List.not_mem_nil k)) k hk
  · refine ⟨_, rfl, ?_⟩
    intro k hk
    exact keys_subset_of_filter_fold cstore InstalledCask.mk versions []
      (fun k hk => absurd hk (List.not_mem_nil k)) k hk

/-- Sample enriched formula `wget` for the C2 witness. -/
def wgetFormula : Formula :=
  .mk ⟨"wget", "homebrew/core", "", "", "1.21"⟩ [] none

/-- Sample enriched cask `firefox` for the C2 witness. -/
def firefoxCask : Cask :=
  .mk ⟨"firefox", "homebrew/cask", none, "", "120"⟩

/-- Witness for C2: catalogs holding only `wget` / `firefox` joined with
scans that also mention a stale `gone` entry — both operations succeed
and every installed key lies in the catalog. -/
theorem installed_keys_subset_catalog_witness :
    (∃ inst, eval_installed_formulae [("wget", wgetFormula)]
        (.ok [("wget", ⟨true, "1.21"⟩), ("gone", ⟨false, "0"⟩)]) = .ok inst ∧
      ∀ k, k ∈ inst.keys → k ∈ Store.keys [("wget", wgetFormula)]) ∧
    (∃ inst, eval_installed_casks [("firefox", firefoxCask)]
        (.ok [("firefox", ["120"]), ("gone", ["0"])]) = .ok inst ∧
      ∀ k, k ∈ inst.keys → k ∈ Store.keys [("firefox", firefoxCask)]) :=
  installed_keys_subset_catalog [("wget", wgetFormula)]
    [("firefox", firefoxCask)]
    [("wget", ⟨true, "1.21"⟩), ("gone", ⟨false, "0"⟩)]
    [("firefox", ["120"]), ("gone", ["0"])]

/-! ### C5: executable-registry line parsing -/

/-- C5: in `Brew::executables` a line with no colon is skipped silently
(the store is unchanged, so the parse cannot fail on it), and the line
`git(1): git git-shell` yields identifier `git` mapped to the executable
set `{git, git-shell}` — the identifier is the part of the left-hand
side before its first opening parenthesis, and the right-hand side is
split on whitespace with duplicates ignored. The model is total: no
line shape produces an error. -/
theorem executables_line_parsing :
    (∀ (store : Store (List String)) (line : List Char),
      splitOnceChar ':' line = none → processLine store line = store) ∧
    (∀ (store : Store (List String)) (line lhs rhs : List Char),
      splitOnceChar ':' line = some (lhs, rhs) →
      takeBeforeChar '(' lhs = none → processLine store line = store) ∧
    executables [("git(1): git git-shell").data]
      = [("git", ["git", "git-shell"])] := by
  refine ⟨?_, ?_, by decide⟩
  · intro store line h
    simp [processLine, h]
  · intro store line lhs rhs hsplit hparen
    have hne : line.isEmpty = false := by
      cases line with
      | nil => exact absurd hsplit (by simp [splitOnceChar])
      | cons c cs => rfl
    simp [processLine, hne, hsplit, hparen]

/-- Witness for C5: the colon-free line `no colon here` leaves the store
untouched, and the `git(1)` line parses to the expected entry. -/
theorem executables_line_parsing_witness :
    splitOnceChar ':' ("no colon here").data = none ∧
    processLine [] ("no colon here").data = [] ∧
    processLine [] ("git: git").data = [] ∧
    executables [("git(1): git git-shell").data]
      = [("git", ["git", "git-shell"])] :=
  ⟨by decide,
    executables_line_parsing.1 [] ("no colon here").data (by decide),
    executables_line_parsing.2.1 [] ("git: git").data
      ("git").data (" git").data (by decide) (by decide),
    executables_line_parsing.2.2⟩

/-! ### C6: a missing or unparseable receipt is fatal to the scan -/

/-- Helper for C6: the receipts loop fails, whatever the accumulated
store, as soon as the entries contain a non-hidden child whose receipt
is missing or unparseable. -/
theorem receiptsScan_error_of_bad_entry :
    ∀ (entries : List OptEntry) (store : Store Receipt),
      (∃ e ∈ entries, is_dotfile e.name = false ∧ e.receipt = none) →
      ∃ msg, receiptsScan entries store = .error msg := by
  intro entries
  induction entries with
  | nil =>
    intro store h
    simp at h
  | cons e rest ih =>
    intro store h
    obtain ⟨e', he', hdot, hrec⟩ := h
    rcases List.mem_cons.mp he' with rfl | hmem
    · rw [receiptsScan, hdot, hrec]
      exact ⟨_, rfl⟩
    · rw [receiptsScan]
      cases hd : is_dotfile e.name with
      | true =>
        simp only [if_true]
        exact ih store ⟨e', hmem, hdot, hrec⟩
      | false =>
        simp only [Bool.false_eq_true, if_false]
        cases hr : e.receipt with
        | none => exact ⟨_, rfl⟩
        | some r => exact ih _ ⟨e', hmem, hdot, hrec⟩

/-- C6: during the receipts scan, a non-hidden child of the receipts
root whose `INSTALL_RECEIPT.json` is missing or unparseable makes the
whole scan return a failure — no partial receipt store is produced and
no such entry is silently skipped. -/
theorem receipts_missing_is_fatal (entries : List OptEntry)
    (h : ∃ e ∈ entries, is_dotfile e.name = false ∧ e.receipt = none) :
    ∃ msg, eval_installed_formulae_receipts entries = .error msg :=
  receiptsScan_error_of_bad_entry entries [] h

/-- Witness for C6: a receipts root whose only child `wget` has no
readable receipt makes the whole scan fail. -/
theorem receipts_missing_is_fatal_witness :
    (∃ e ∈ [(⟨"wget", none⟩ : OptEntry)],
      is_dotfile e.name = false ∧ e.receipt = none) ∧
    ∃ msg, eval_installed_formulae_receipts [⟨"wget", none⟩] = .error msg :=
  ⟨by decide, receipts_missing_is_fatal [⟨"wget", none⟩] (by decide)⟩

/-! ### C7: hidden receipts-root entries are skipped unread -/

/-- C7: the receipts scan skips every child whose name begins with a
dot — the scan of a batch headed by a hidden entry equals the scan of
the remainder, whatever receipt data the hidden entry carries, so its
receipt file is never opened; in particular a receipts root holding
`.DS_Store` (with no readable receipt, which would otherwise be fatal)
alongside `wget` scans `wget` only. -/
theorem hidden_receipt_entries_skipped :
    (∀ (e : OptEntry) (rest : List OptEntry) (store : Store Receipt),
      is_dotfile e.name = true →
      receiptsScan (e :: rest) store = receiptsScan rest store) ∧
    eval_installed_formulae_receipts
      [⟨".DS_Store", none⟩, ⟨"wget", some ⟨true, "1.21"⟩⟩]
      = .ok [("wget", ⟨true, "1.21"⟩)] := by
  constructor
  · intro e rest store h
    simp [receiptsScan, h]
  · decide

/-- Witness for C7: the hidden `.DS_Store` entry is skipped with its
(unreadable) receipt never inspected, and the two-entry root scans to
`wget` alone. -/
theorem hidden_receipt_entries_skipped_witness :
    is_dotfile ".DS_Store" = true ∧
    receiptsScan [⟨".DS_Store", none⟩] [] = receiptsScan [] [] ∧
    eval_installed_formulae_receipts
      [⟨".DS_Store", none⟩, ⟨"wget", some ⟨true, "1.21"⟩⟩]
      = .ok [("wget", ⟨true, "1.21"⟩)] :=
  ⟨by decide,
    hidden_receipt_entries_skipped.1 ⟨".DS_Store", none⟩ [] [] (by decide),
    hidden_receipt_entries_skipped.2⟩

/-! ### C10: no hidden-entry skip at the Caskroom root level -/

/-- Helper for C10: the cask-versions loop fails, whatever the
accumulated store, as soon as any root child's own listing fails — with
no condition on the child's name, hidden or not. -/
theorem caskVersionsScan_error_of_bad_child :
    ∀ (entries : List CaskroomEntry) (store : Store (List String)),
      (∃ e ∈ entries, ∃ msg, e.children = .error msg) →
      ∃ msg, caskVersionsScan entries store = .error msg := by
  intro entries
  induction entries with
  | nil =>
    intro store h
    simp at h
  | cons e rest ih =>
    intro store h
    cases hc : e.children with
    | error msg => exact ⟨msg, by rw [caskVersionsScan, hc]⟩
    | ok names =>
      obtain ⟨e', he', msg, hmsg⟩ := h
      rcases List.mem_cons.mp he' with rfl | hmem
      · rw [hc] at hmsg
        exact absurd hmsg (by intro hh; exact Except.noConfusion hh)
      · rw [caskVersionsScan, hc]
        exact ih _ ⟨e', hmem, msg, hmsg⟩

/-- Helper for C10: keys already in the accumulator, and the name of
every entry, survive into a successful scan result. -/
theorem caskVersionsScan_keys :
    ∀ (entries : List CaskroomEntry) (store store' : Store (List String)),
      caskVersionsScan entries store = .ok store' →
      ∀ k, (k ∈ store.keys ∨ ∃ e ∈ entries, e.name = k) →
        k ∈ store'.keys := by
  intro entries
  induction entries with
  | nil =>
    intro store store' h k hk
    rw [caskVersionsScan] at h
    cases h
    rcases hk with hk | ⟨e, he, _⟩
    · exact hk
    · exact absurd he (List.not_mem_nil e)
  | cons e rest ih =>
    intro store store' h k hk
    rw [caskVersionsScan] at h
    cases hc : e.children with
    | error msg =>
      rw [hc] at h
      exact Except.noConfusion h
    | ok names =>
      rw [hc] at h
      refine ih _ store' h k ?_
      rcases hk with hk | ⟨e', he', hname⟩
      · exact Or.inl ((Store.mem_keys_insert store e.name k _).mpr (Or.inr hk))
      · rcases List.mem_cons.mp he' with rfl | hmem
        · exact Or.inl ((Store.mem_keys_insert store e'.name k _).mpr
            (Or.inl hname.symm))
        · exact Or.inr ⟨e', hmem, hname⟩

/-- Helper for C10: folding a name list into a version set skips hidden
names, so every collected version name is non-hidden (given the
accumulator's already are). -/
theorem versions_fold_nondot :
    ∀ (names : List String) (vs : List String),
      (∀ v ∈ vs, is_dotfile v = false) →
      ∀ v ∈ names.foldl
        (fun vs n => if is_dotfile n then vs else insertSet vs n) vs,
        is_dotfile v = false := by
  intro names
  induction names with
  | nil => intro vs h v hv; exact h v hv
  | cons n rest ih =>
    intro vs h v hv
    rw [List.foldl_cons] at hv
    cases hd : is_dotfile n with
    | true =>
      rw [hd] at hv
      simp only [if_pos] at hv
      exact ih vs h v hv
    | false =>
      rw [hd] at hv
      simp only [Bool.false_eq_true, if_false] at hv
      refine ih (insertSet vs n) ?_ v hv
      intro v' hv'
      rw [insertSet] at hv'
      by_cases hmem : n ∈ vs
      · rw [if_pos hmem] at hv'
        exact h v' hv'
      · rw [if_neg hmem] at hv'
        rcases List.mem_append.mp hv' with hl | hr
        · exact h v' hl
        · rw [List.mem_singleton.mp hr]
          exact hd

/-- Helper for C10: every version set in a successful scan result
contains only non-hidden names (given the accumulator's already do). -/
theorem caskVersionsScan_values_nondot :
    ∀ (entries : List CaskroomEntry) (store store' : Store (List String)),
      (∀ p ∈ store, ∀ v ∈ p.2, is_dotfile v = false) →
      caskVersionsScan entries store = .ok store' →
      ∀ p ∈ store', ∀ v ∈ p.2, is_dotfile v = false := by
  intro entries
  induction entries with
  | nil =>
    intro store store' hstore h
    rw [caskVersionsScan] at h
    cases h
    exact hstore
  | cons e rest ih =>
    intro store store' hstore h
    rw [caskVersionsScan] at h
    cases hc : e.children with
    | error msg =>
      rw [hc] at h
      exact Except.noConfusion h
    | ok names =>
      rw [hc] at h
      refine ih _ store' ?_ h
      intro p hp v hv
      rcases Store.mem_insert store e.name _ p hp with hmem | rfl
      · exact hstore p hmem v hv
      · exact versions_fold_nondot names []
          (fun v hv => absurd hv (List.not_mem_nil v)) v hv

/-- C10: the cask-versions scan does not skip hidden entries at the
Caskroom root level — a failure listing any root child's own children
(for example a regular file such as `.DS_Store`) fails the whole scan,
with no name condition, and on success every root child's name,
hidden-named ones included, is a key of the result. Hidden names are
skipped only one level down: every collected version set contains only
non-hidden names. -/
theorem caskroom_root_hidden_not_skipped (entries : List CaskroomEntry) :
    ((∃ e ∈ entries, ∃ msg, e.children = .error msg) →
      ∃ msg, eval_installed_casks_versions entries = .error msg) ∧
    (∀ store, eval_installed_casks_versions entries = .ok store →
      (∀ e ∈ entries, e.name ∈ store.keys) ∧
      (∀ p ∈ store, ∀ v ∈ p.2, is_dotfile v = false)) := by
  constructor
  · exact caskVersionsScan_error_of_bad_child entries []
  · intro store h
    constructor
    · intro e he
      exact caskVersionsScan_keys entries [] store h e.name
        (Or.inr ⟨e, he, rfl⟩)
    · exact caskVersionsScan_values_nondot entries [] store
        (fun p hp => absurd hp (List.not_mem_nil p)) h

/-- Witness for C10: a Caskroom root holding only the regular file
`.DS_Store` fails the whole scan, while a root holding the hidden-named
directory `.hidden-cask` is scanned as a cask — it appears as a key —
with its own hidden child `.metadata` excluded from the version set. -/
theorem caskroom_root_hidden_not_skipped_witness :
    (∃ e ∈ [(⟨".DS_Store", .error "Not a directory"⟩ : CaskroomEntry)],
      ∃ msg, e.children = .error msg) ∧
    (∃ msg, eval_installed_casks_versions
      [⟨".DS_Store", .error "Not a directory"⟩] = .error msg) ∧
    eval_installed_casks_versions [⟨".hidden-cask", .ok ["1.0", ".metadata"]⟩]
      = .ok [(".hidden-cask", ["1.0"])] ∧
    ".hidden-cask" ∈ Store.keys [(".hidden-cask", (["1.0"] : List String))] := by
  have hbad : ∃ e ∈ [(⟨".DS_Store", .error "Not a directory"⟩ : CaskroomEntry)],
      ∃ msg, e.children = Except.error msg :=
    ⟨⟨".DS_Store", .error "Not a directory"⟩, by simp, "Not a directory", rfl⟩
  refine ⟨hbad, ?_, by decide, ?_⟩
  · exact (caskroom_root_hidden_not_skipped
      [⟨".DS_Store", .error "Not a directory"⟩]).1 hbad
  · have h := ((caskroom_root_hidden_not_skipped
      [⟨".hidden-cask", .ok ["1.0", ".metadata"]⟩]).2
        [(".hidden-cask", ["1.0"])] (by decide)).1
      ⟨".hidden-cask", .ok ["1.0", ".metadata"]⟩ (by decide)
    exact h

end Brewer
